import Mathlib

/-!
Shallow embedding of the trend-extraction workflow sources
(`trend_extractor_main.py`, `db_utils.py`): the keyword categorizer, the
sentiment-score parsing and clamping, the per-keyword aggregation summary,
and the database utility operations (recent-trends view, CSV export,
age-based purge, menu parameter parsing).

Modeling conventions: text is handled through `List Char` to keep every
definition kernel-executable; SQLite INTEGER columns are `Int`, REAL
columns are `ℚ` (exact Python float formatting is not representable, so
numeric CSV fields are compared through an injective textual rendering).
-/

/-! ## Text primitives (Python string operations used by the sources) -/

/-- Python prefix test on character lists: `bs` starts with `as_`. -/
def isPrefixCheck : List Char → List Char → Bool
  | [], _ => true
  | _ :: _, [] => false
  | a :: as_, b :: bs => a == b && isPrefixCheck as_ bs

/-- Python substring containment `needle in hay` on character lists. -/
def containsSub (hay needle : List Char) : Bool :=
  match hay with
  | [] => isPrefixCheck needle []
  | _ :: t => isPrefixCheck needle hay || containsSub t needle

/-- Python `str.lower()` restricted to its ASCII action (the sources only
compare ASCII trigger words and the literal "yes"). -/
def lowerL (s : List Char) : List Char := s.map Char.toLower

/-! ## Categorizer (`TrendCategorizer.categorize`, trend_extractor_main.py 283-295) -/

/-- The `Config.CATEGORIES` map of trend_extractor_main.py, in declaration order. -/
def CATEGORIES : List (String × List String) :=
  [("Social Media Marketing",
      ["social media", "instagram", "tiktok", "facebook", "twitter", "linkedin", "influencer"]),
   ("Content Marketing",
      ["content", "blog", "video", "podcast", "storytelling", "copywriting"]),
   ("SEO & SEM",
      ["seo", "sem", "search engine", "google", "keywords", "backlinks", "ranking"]),
   ("Email Marketing",
      ["email", "newsletter", "automation", "drip campaign"]),
   ("Analytics & Data",
      ["analytics", "data", "metrics", "KPI", "ROI", "tracking", "insights"]),
   ("Emerging Tech",
      ["AI", "chatbot", "automation", "machine learning", "AR", "VR", "metaverse"])]

/-- One category score: `sum(1 for kw in keywords if kw.lower() in keyword_lower)`. -/
def triggerScore (keywordLower : List Char) (triggers : List String) : Nat :=
  (triggers.filter (fun kw => containsSub keywordLower (lowerL kw.data))).length

/-- The `category_scores` dict built by `categorize`: categories in declaration
order of the category map, restricted to those with a positive score. -/
def categoryScores (categories : List (String × List String)) (keyword : String) :
    List (String × Nat) :=
  (categories.map (fun c => (c.1, triggerScore (lowerL keyword.data) c.2))).filter
    (fun p => 0 < p.2)

/-- Python `max(category_scores, key=category_scores.get)`: scan left to right,
replace the current best only on a strictly larger value, so the first key of
maximal value wins. -/
def pickMax (s : String × Nat) (rest : List (String × Nat)) : String × Nat :=
  rest.foldl (fun best p => if best.2 < p.2 then p else best) s

/-- `TrendCategorizer.categorize`: highest-scoring matched category, with the
literal default label of the source when no trigger matches. -/
def categorize (categories : List (String × List String)) (keyword : String) : String :=
  match categoryScores categories keyword with
  | [] => "General Marketing"
  | s :: rest => (pickMax s rest).1

/-! ## Sentiment scorer (`SentimentAnalyzer.analyze_sentiment`, trend_extractor_main.py 249-266) -/

/-- Greedy match of the pattern body `\d+\.?\d*` at the head of the input:
one or more digits, an optional dot, then any further digits. Returns the
matched characters and the rest of the input. -/
def matchDigitsToken (t : List Char) : Option (List Char × List Char) :=
  let ds := t.takeWhile Char.isDigit
  if ds.isEmpty then none
  else
    match t.dropWhile Char.isDigit with
    | '.' :: u => some (ds ++ '.' :: u.takeWhile Char.isDigit, u.dropWhile Char.isDigit)
    | u => some (ds, u)

/-- Greedy match of `-?\d+\.?\d*` at the head of the input. -/
def matchNumToken (s : List Char) : Option (List Char × List Char) :=
  match s with
  | '-' :: t => (matchDigitsToken t).map (fun r => ('-' :: r.1, r.2))
  | t => matchDigitsToken t

/-- One scanning pass of `re.findall`: at each position try to match, on
success continue after the match, otherwise advance one character. The fuel
argument (instantiated with the length of the text) bounds the scan, which
consumes at least one character per step. -/
def findNumsAux : Nat → List Char → List (List Char)
  | 0, _ => []
  | _ + 1, [] => []
  | fuel + 1, c :: t =>
    match matchNumToken (c :: t) with
    | some (tok, rest) => tok :: findNumsAux fuel rest
    | none => findNumsAux fuel t

/-- `re.findall(r..., score_text)` for the numeric-token pattern. -/
def findNums (s : List Char) : List (List Char) := findNumsAux s.length s

/-- Python `str.strip()`: drop whitespace from both ends. -/
def stripL (s : List Char) : List Char :=
  ((s.dropWhile Char.isWhitespace).reverse.dropWhile Char.isWhitespace).reverse

/-- Decimal value of a digit run. -/
def digitsVal (ds : List Char) : Nat :=
  ds.foldl (fun n c => 10 * n + (c.toNat - 48)) 0

/-- Exact value of an unsigned matched token (integer part, optional fraction). -/
def absTokenToRat (t : List Char) : ℚ :=
  let ds := t.takeWhile Char.isDigit
  let fs := match t.dropWhile Char.isDigit with
    | '.' :: u => u
    | _ => []
  (digitsVal ds : ℚ) + (digitsVal fs : ℚ) / ((10 : ℚ) ^ fs.length)

/-- Exact value of a matched token (`float(...)` on the token, kept exact). -/
def tokenToRat (tok : List Char) : ℚ :=
  match tok with
  | '-' :: t => -(absTokenToRat t)
  | t => absTokenToRat t

/-- Python `min(a, b)`: the first argument wins ties. -/
def pyMin (a b : ℚ) : ℚ := if a ≤ b then a else b

/-- Python `max(a, b)`: the first argument wins ties. -/
def pyMax (a b : ℚ) : ℚ := if b ≤ a then a else b

/-- `SentimentAnalyzer.analyze_sentiment`: the external call either raises (any
exception) or yields a response text; the text is stripped, the first
`-?\d+\.?\d*` token is converted and clamped by `max(-1, min(1, score))`; every
failure path — exception from the call, or no numeric token found (the
IndexError of `[0]`) — is caught and yields 0.0. -/
def analyze_sentiment (response : Except Unit String) : ℚ :=
  match response with
  | .error _ => 0
  | .ok text =>
    match findNums (stripL text.data) with
    | [] => 0
    | tok :: _ => pyMax (-1) (pyMin 1 (tokenToRat tok))

/-! ## Menu numeric prompts (db_utils.py `main`, 254-308) -/

/-- Python `str.isdigit()` on the ASCII inputs of the menu: nonempty and all
characters decimal digits. -/
def pyIsDigit (s : List Char) : Bool := !s.isEmpty && s.all Char.isDigit

/-- One `int(x) if x.isdigit() else default` menu prompt applied to the raw
input line, which the menu strips first. -/
def menuNumber (raw : String) (dflt : Nat) : Nat :=
  let s := stripL raw.data
  if pyIsDigit s then digitsVal s else dflt

/-- The days parameter of menu choice 1 (view recent trends), default 7. -/
def viewRecentDaysParam (raw : String) : Nat := menuNumber raw 7

/-- The limit parameter of menu choice 1 (view recent trends), default 50. -/
def viewRecentLimitParam (raw : String) : Nat := menuNumber raw 50

/-- The days parameter of menu choice 4 (trending keywords), default 7. -/
def topKeywordsDaysParam (raw : String) : Nat := menuNumber raw 7

/-- The top-N parameter of menu choice 4 (trending keywords), default 20. -/
def topKeywordsNParam (raw : String) : Nat := menuNumber raw 20

/-- The days parameter of menu choice 5 (CSV export), default 30. -/
def exportDaysParam (raw : String) : Nat := menuNumber raw 30

/-- The days parameter of menu choice 6 (clear old data), default 90. -/
def purgeDaysParam (raw : String) : Nat := menuNumber raw 90

/-! ## Stored observations and date comparisons (db_utils.py) -/

/-- One row of the `trends` table as read by db_utils: keyword, platform,
category, volume (INTEGER), sentiment and engagement scores (REAL, kept as
exact rationals), and the SQLite text timestamp `YYYY-MM-DD HH:MM:SS`. -/
structure Obs where
  keyword : String
  platform : String
  category : String
  volume : Int
  sentiment_score : ℚ
  engagement_score : ℚ
  timestamp : String
  deriving DecidableEq

/-- SQLite text comparison (byte order) on character lists. -/
def textLt : List Char → List Char → Bool
  | [], [] => false
  | [], _ :: _ => true
  | _ :: _, [] => false
  | a :: as_, b :: bs => if a < b then true else if b < a then false else textLt as_ bs

/-- `DATE(timestamp)` of a stored `YYYY-MM-DD HH:MM:SS` text timestamp: its
date part, the first ten characters. -/
def dateOf (r : Obs) : List Char := r.timestamp.data.take 10

/-- The `DATE(timestamp) < ?` comparison against a `YYYY-MM-DD` threshold. -/
def olderThan (threshold : String) (r : Obs) : Bool := textLt (dateOf r) threshold.data

/-- `DatabaseUtils.clear_old_data`: count the rows dated before the threshold;
when none, return at once without asking for confirmation (second component
false); otherwise ask (second component true) and delete exactly those rows
when the lowered reply equals "yes". -/
def clear_old_data (threshold : String) (confirm : String) (rows : List Obs) :
    List Obs × Bool :=
  let old := rows.filter (olderThan threshold)
  if old.length = 0 then (rows, false)
  else if (⟨lowerL confirm.data⟩ : String) = "yes" then
    (rows.filter (fun r => !olderThan threshold r), true)
  else (rows, true)

/-- The `ORDER BY (volume + engagement_score) DESC` sort key of
`view_recent_trends`. -/
def viewKey (r : Obs) : ℚ := (r.volume : ℚ) + r.engagement_score

/-- `DatabaseUtils.view_recent_trends`: rows dated at or after the threshold,
ordered by combined score descending, truncated by `LIMIT`. -/
def view_recent_trends (threshold : String) (limit : Nat) (rows : List Obs) : List Obs :=
  (List.insertionSort (fun a b => viewKey b ≤ viewKey a)
    (rows.filter (fun r => !olderThan threshold r))).take limit

/-- The row set selected by `export_to_csv`: `WHERE DATE(timestamp) >= ?`. -/
def exportSelect (threshold : String) (rows : List Obs) : List Obs :=
  rows.filter (fun r => !olderThan threshold r)

/-! ## CSV rendering and re-parsing (`DatabaseUtils.export_to_csv`, db_utils.py 136-162) -/

/-- Decimal digits of a natural number; the fuel argument (instantiated with
the number itself, which bounds the digit count) keeps the recursion
structural. -/
def natDigitsAux : Nat → Nat → List Char
  | 0, _ => []
  | fuel + 1, n => if n = 0 then [] else natDigitsAux fuel (n / 10) ++ [Char.ofNat (48 + n % 10)]

/-- Decimal rendering of a natural number. -/
def natStrL (n : Nat) : List Char := if n = 0 then ['0'] else natDigitsAux n n

/-- Python rendering of an SQLite INTEGER value. -/
def intStrL (i : Int) : List Char :=
  if i < 0 then '-' :: natStrL i.natAbs else natStrL i.natAbs

/-- Injective textual stand-in for the interpolation of a REAL column (exact
Python float formatting is not representable; only the characters matter for
the CSV round trip). -/
def ratStrL (q : ℚ) : List Char :=
  if q.den = 1 then intStrL q.num else intStrL q.num ++ '/' :: natStrL q.den

/-- One data line written by `export_to_csv`: the keyword with commas replaced
by semicolons, wrapped in double quotes, then the six remaining fields
comma-separated in the order platform, category, volume, sentiment score,
engagement score, timestamp. -/
def csvLine (r : Obs) : List Char :=
  ['"'] ++ r.keyword.data.map (fun c => if c = ',' then ';' else c) ++ ['"', ','] ++
    r.platform.data ++ [','] ++ r.category.data ++ [','] ++ intStrL r.volume ++ [','] ++
    ratStrL r.sentiment_score ++ [','] ++ ratStrL r.engagement_score ++ [','] ++
    r.timestamp.data

/-- The header line written by `export_to_csv`. -/
def csvHeader : List Char :=
  "Keyword,Platform,Category,Volume,Sentiment Score,Engagement Score,Timestamp".data

/-- The full text written by `export_to_csv` for a list of selected rows:
header line, then one line per row, every line newline-terminated. -/
def csvContent (rows : List Obs) : List Char :=
  csvHeader ++ '\n' :: (rows.map (fun r => csvLine r ++ ['\n'])).flatten

/-- `DatabaseUtils.export_to_csv`: select the window, order by timestamp
descending, render the file text. -/
def export_to_csv (threshold : String) (rows : List Obs) : List Char :=
  csvContent (List.insertionSort
    (fun a b => textLt a.timestamp.data b.timestamp.data = false)
    (exportSelect threshold rows))

/-- Split a character list at every occurrence of the separator. -/
def splitOnChar (sep : Char) : List Char → List (List Char)
  | [] => [[]]
  | c :: cs =>
    if c = sep then [] :: splitOnChar sep cs
    else
      match splitOnChar sep cs with
      | [] => [[c]]
      | g :: gs => (c :: g) :: gs

/-- Re-parse one CSV data line: a leading double quote opens the keyword
field, which runs to the closing quote; the remainder, after the following
comma, splits at commas. A line without a single well-formed quoted field is
rejected. -/
def parseCsvLine (s : List Char) : Option (List (List Char)) :=
  match s with
  | [] => none
  | c :: rest =>
    if c = '"' then
      match splitOnChar '"' rest with
      | [kw, tail] =>
        match tail with
        | t :: fields => if t = ',' then some (kw :: splitOnChar ',' fields) else none
        | [] => none
      | _ => none
    else none

/-- Parse every data line, failing when any line is malformed. -/
def parseAllLines : List (List Char) → Option (List (List (List Char)))
  | [] => some []
  | l :: ls =>
    match parseCsvLine l, parseAllLines ls with
    | some fs, some rest => some (fs :: rest)
    | _, _ => none

/-- Re-parse an exported file: split at newlines, drop the header line and the
empty piece after the final newline, parse each data line. -/
def parseCsv (s : List Char) : Option (List (List (List Char))) :=
  parseAllLines (((splitOnChar '\n' s).drop 1).dropLast)

/-- The escaped keyword field: commas replaced by semicolons. -/
def escKw (r : Obs) : List Char :=
  r.keyword.data.map (fun c => if c = ',' then ';' else c)

/-- The unquoted portion of a data line after the keyword field and its
separating comma. -/
def tailFields (r : Obs) : List Char :=
  r.platform.data ++ ',' ::
    (r.category.data ++ ',' ::
      (intStrL r.volume ++ ',' ::
        (ratStrL r.sentiment_score ++ ',' ::
          (ratStrL r.engagement_score ++ ',' :: r.timestamp.data))))

/-- The field values of a row as written to the file: the keyword with commas
replaced by semicolons, then the six remaining fields in column order. -/
def csvFields (r : Obs) : List (List Char) :=
  [r.keyword.data.map (fun c => if c = ',' then ';' else c),
   r.platform.data, r.category.data, intStrL r.volume,
   ratStrL r.sentiment_score, ratStrL r.engagement_score, r.timestamp.data]

/-- Text fields that survive the naive CSV format of the export: the keyword
may contain commas (they are escaped) but no double quote or newline; the
unquoted text fields must avoid comma, double quote and newline. -/
def csvSafe (r : Obs) : Prop :=
  ('"' ∉ r.keyword.data ∧ '\n' ∉ r.keyword.data) ∧
    ∀ f ∈ [r.platform.data, r.category.data, r.timestamp.data],
      ',' ∉ f ∧ '"' ∉ f ∧ '\n' ∉ f

instance decCsvSafe (r : Obs) : Decidable (csvSafe r) := by
  unfold csvSafe
  infer_instance

/-- A stored observation whose keyword contains a newline, used to refute the
unconditional CSV round-trip claim. -/
def badObs : Obs :=
  { keyword := "a\nb", platform := "Reddit", category := "General Marketing",
    volume := 1, sentiment_score := 0, engagement_score := 0,
    timestamp := "2024-01-01 00:00:00" }

/-! ## Trend processing (`TrendExtractor.process_trends`, trend_extractor_main.py 661-680) -/

/-- An in-flight trend record between collection and persistence: the optional
fields mirror the dict keys that may be absent from a collected record
(Google Trends records carry no engagement score or sentiment; `volume` is
read through `.get('volume', 0)`). -/
structure RawTrend where
  keyword : String
  platform : String
  volume : Option Int
  sentiment_score : Option ℚ
  engagement_score : Option ℚ
  category : Option String
  deriving DecidableEq

/-- `process_trends` on one record: assign the category, fill a missing
sentiment score with the analyzer result, and fill a missing engagement score
with `trend.get('volume', 0)`; the record is then persisted as is. -/
def processTrend (sentimentOf : String → ℚ) (t : RawTrend) : RawTrend :=
  { t with
    category := some (categorize CATEGORIES t.keyword),
    sentiment_score := some (t.sentiment_score.getD (sentimentOf t.keyword)),
    engagement_score := some (t.engagement_score.getD ((t.volume.getD 0 : Int) : ℚ)) }

/-- `TrendExtractor.process_trends` over a batch. -/
def process_trends (sentimentOf : String → ℚ) (trends : List RawTrend) : List RawTrend :=
  trends.map (processTrend sentimentOf)

/-- The combined ranking score used throughout the reports:
`trend.get('volume', 0) + trend.get('engagement_score', 0)`. -/
def combinedScore (t : RawTrend) : ℚ :=
  ((t.volume.getD 0 : Int) : ℚ) + t.engagement_score.getD 0

/-! ## Aggregation (`TrendExtractor.get_current_trends_summary`, trend_extractor_main.py 733-778) -/

/-- Per-keyword accumulator built by the aggregation loop (one value of the
`keyword_data` dict). The platform and category sets are modeled as
first-occurrence lists. -/
structure KeywordAgg where
  keyword : String
  platforms : List String
  categories : List String
  total_volume : Int
  total_engagement : ℚ
  sentiment_scores : List ℚ
  occurrences : Nat
  deriving DecidableEq

/-- Add an element to a set modeled as a first-occurrence list. -/
def addToSet (l : List String) (x : String) : List String :=
  if x ∈ l then l else l ++ [x]

/-- The fresh accumulator installed when a keyword is first seen. -/
def emptyAgg (k : String) : KeywordAgg :=
  { keyword := k, platforms := [], categories := [], total_volume := 0,
    total_engagement := 0, sentiment_scores := [], occurrences := 0 }

/-- One iteration of the aggregation loop body on the accumulator of the
matching keyword. -/
def applyTrend (a : KeywordAgg) (t : Obs) : KeywordAgg :=
  { a with
    platforms := addToSet a.platforms t.platform,
    categories := addToSet a.categories t.category,
    total_volume := a.total_volume + t.volume,
    total_engagement := a.total_engagement + t.engagement_score,
    sentiment_scores := a.sentiment_scores ++ [t.sentiment_score],
    occurrences := a.occurrences + 1 }

/-- Update the insertion-ordered dict of accumulators with one observation:
the first accumulator with the same keyword is updated, otherwise a fresh one
is appended. -/
def updateAgg : List KeywordAgg → Obs → List KeywordAgg
  | [], t => [applyTrend (emptyAgg t.keyword) t]
  | a :: rest, t =>
    if a.keyword = t.keyword then applyTrend a t :: rest
    else a :: updateAgg rest t

/-- The grouping loop of `get_current_trends_summary`. -/
def groupTrends (trends : List Obs) : List KeywordAgg :=
  trends.foldl updateAgg []

/-- One emitted summary row. -/
structure SummaryRow where
  keyword : String
  platforms : List String
  categories : List String
  total_volume : Int
  total_engagement : ℚ
  avg_sentiment : ℚ
  occurrences : Nat
  combined_score : ℚ
  deriving DecidableEq

/-- Summary row from an accumulator: mean sentiment (0 on an empty score list,
as the source guards) and combined score = total volume + total engagement. -/
def toSummary (a : KeywordAgg) : SummaryRow :=
  { keyword := a.keyword, platforms := a.platforms, categories := a.categories,
    total_volume := a.total_volume, total_engagement := a.total_engagement,
    avg_sentiment := if a.sentiment_scores.isEmpty then 0
      else a.sentiment_scores.sum / (a.sentiment_scores.length : ℚ),
    occurrences := a.occurrences,
    combined_score := (a.total_volume : ℚ) + a.total_engagement }

/-- `TrendExtractor.get_current_trends_summary` applied to the observations
read from the trailing window: group by keyword, emit one summary row per
accumulator, sort by combined score descending (stable, like `list.sort` with
`reverse=True`), truncate to the top N. -/
def get_current_trends_summary (trends : List Obs) (top_n : Nat) : List SummaryRow :=
  (List.insertionSort (fun a b => b.combined_score ≤ a.combined_score)
    ((groupTrends trends).map toSummary)).take top_n

/-- First accumulator carrying a given keyword. -/
def findAgg (l : List KeywordAgg) (k : String) : Option KeywordAgg :=
  l.find? (fun a => a.keyword == k)

/-- The per-keyword trace of the aggregation loop: fold the observations with
a matching keyword into an optional accumulator. -/
def aggFold (o : Option KeywordAgg) (k : String) (ts : List Obs) : Option KeywordAgg :=
  ts.foldl
    (fun o t => if t.keyword = k then some (applyTrend (o.getD (emptyAgg k)) t) else o) o

/-- The two observations of the aggregation example in the specification. -/
def aObs1 : Obs :=
  { keyword := "A", platform := "platform1", category := "General Marketing",
    volume := 10, sentiment_score := 0, engagement_score := 5,
    timestamp := "2024-01-01 00:00:00" }

/-- Second observation of the aggregation example. -/
def aObs2 : Obs :=
  { keyword := "A", platform := "platform2", category := "General Marketing",
    volume := 3, sentiment_score := 0, engagement_score := 1,
    timestamp := "2024-01-02 00:00:00" }

/-- Row with the larger combined score in the LIMIT counterexample. -/
def cObs1 : Obs :=
  { keyword := "k1", platform := "Reddit", category := "General Marketing",
    volume := 10, sentiment_score := 0, engagement_score := 0,
    timestamp := "2024-01-05 00:00:00" }

/-- Row with the smaller combined score in the LIMIT counterexample. -/
def cObs2 : Obs :=
  { keyword := "k2", platform := "Reddit", category := "General Marketing",
    volume := 5, sentiment_score := 0, engagement_score := 0,
    timestamp := "2024-01-05 00:00:00" }

/-- A Google-Trends-style collected record: volume present, no engagement or
sentiment score yet. -/
def gTrend : RawTrend :=
  { keyword := "seo", platform := "Google Trends", volume := some 7,
    sentiment_score := none, engagement_score := none, category := none }

/-! ## Helper lemmas for the categorizer -/

theorem pickMax_cons (s p : String × Nat) (rest : List (String × Nat)) :
    pickMax s (p :: rest) = pickMax (if s.2 < p.2 then p else s) rest := rfl

theorem le_pickMax_snd : ∀ (rest : List (String × Nat)) (s : String × Nat),
    s.2 ≤ (pickMax s rest).2
  | [], _ => le_refl _
  | p :: rest, s => by
    rw [pickMax_cons]
    by_cases h : s.2 < p.2
    · rw [if_pos h]
      exact le_trans (Nat.le_of_lt h) (le_pickMax_snd rest p)
    · rw [if_neg h]
      exact le_pickMax_snd rest s

theorem pickMax_split : ∀ (rest : List (String × Nat)) (s : String × Nat),
    ∃ pre post, s :: rest = pre ++ pickMax s rest :: post ∧
      (∀ p ∈ pre, p.2 < (pickMax s rest).2) ∧ (∀ p ∈ post, p.2 ≤ (pickMax s rest).2)
  | [], s => ⟨[], [], rfl, by simp, by simp⟩
  | p :: rest, s => by
    rw [pickMax_cons]
    by_cases h : s.2 < p.2
    · rw [if_pos h]
      obtain ⟨pre, post, heq, hpre, hpost⟩ := pickMax_split rest p
      refine ⟨s :: pre, post, ?_, ?_, hpost⟩
      · rw [List.cons_append, ← heq]
      · intro q hq
        rcases List.mem_cons.mp hq with hq | hq
        · subst hq
          exact lt_of_lt_of_le h (le_pickMax_snd rest p)
        · exact hpre q hq
    · rw [if_neg h]
      obtain ⟨pre, post, heq, hpre, hpost⟩ := pickMax_split rest s
      cases pre with
      | nil =>
        simp only [List.nil_append] at heq
        injection heq with hs hrest
        refine ⟨[], p :: post, ?_, by simp, ?_⟩
        · rw [List.nil_append, ← hs, hrest]
        · intro q hq
          rcases List.mem_cons.mp hq with hq | hq
          · subst hq
            rw [← hs]
            exact Nat.le_of_not_lt h
          · exact hpost q hq
      | cons a pre₂ =>
        simp only [List.cons_append] at heq
        injection heq with hs hrest
        refine ⟨s :: p :: pre₂, post, ?_, ?_, hpost⟩
        · rw [List.cons_append, List.cons_append, ← hrest]
        · intro q hq
          have hsm : s.2 < (pickMax s rest).2 := by
            rw [show s.2 = a.2 from congrArg Prod.snd hs]
            exact hpre a (List.mem_cons_self a pre₂)
          rcases List.mem_cons.mp hq with hq | hq
          · subst hq; exact hsm
          · rcases List.mem_cons.mp hq with hq | hq
            · subst hq
              exact lt_of_le_of_lt (Nat.le_of_not_lt h) hsm
            · exact hpre q (List.mem_cons_of_mem a hq)

/-! ## Claim theorems: categorizer -/

/-- C1: for every keyword, when at least one category has a positive trigger
match count, `categorize` returns the label of an entry of the score list
(which lists the matched categories in declaration order of the category map)
whose count is maximal, every earlier matched category having a strictly
smaller count and every later one a count no larger — i.e. the first maximal
entry in declaration order. -/
theorem categorize_max_first_tie (categories : List (String × List String)) (keyword : String)
    (h : categoryScores categories keyword ≠ []) :
    ∃ n pre post,
      categoryScores categories keyword = pre ++ (categorize categories keyword, n) :: post ∧
      (∀ p ∈ pre, p.2 < n) ∧ (∀ p ∈ post, p.2 ≤ n) := by
  cases hcs : categoryScores categories keyword with
  | nil => exact absurd hcs h
  | cons s rest =>
    obtain ⟨pre, post, heq, hpre, hpost⟩ := pickMax_split rest s
    have hc : categorize categories keyword = (pickMax s rest).1 := by
      unfold categorize
      rw [hcs]
    refine ⟨(pickMax s rest).2, pre, post, ?_, hpre, hpost⟩
    calc s :: rest = pre ++ pickMax s rest :: post := heq
      _ = pre ++ (categorize categories keyword, (pickMax s rest).2) :: post := by
          rw [hc, Prod.mk.eta]

/-- Witness for C1 at the keyword "instagram video": the score list is
nonempty and the theorem applies. -/
theorem categorize_max_first_tie_witness :
    categoryScores CATEGORIES "instagram video" ≠ [] ∧
      (∃ n pre post,
        categoryScores CATEGORIES "instagram video" =
          pre ++ (categorize CATEGORIES "instagram video", n) :: post ∧
        (∀ p ∈ pre, p.2 < n) ∧ (∀ p ∈ post, p.2 ≤ n)) :=
  ⟨by decide, categorize_max_first_tie CATEGORIES "instagram video" (by decide)⟩

/-- C6 counterexample: no trigger of any category occurs in the keyword "qqq",
yet `categorize` returns the literal "General Marketing", not "uncategorized". -/
theorem categorize_default_label_not_uncategorized :
    (∀ c ∈ CATEGORIES, ∀ t ∈ c.2, containsSub (lowerL ("qqq").data) (lowerL t.data) = false) ∧
      categorize CATEGORIES "qqq" ≠ "uncategorized" := by decide

/-- C6 as amended: when no trigger of any category occurs case-insensitively in
the keyword, `categorize` returns the default label "General Marketing". -/
theorem categorize_no_match_default (categories : List (String × List String)) (keyword : String)
    (h : ∀ c ∈ categories, triggerScore (lowerL keyword.data) c.2 = 0) :
    categorize categories keyword = "General Marketing" := by
  have hnil : categoryScores categories keyword = [] := by
    unfold categoryScores
    rw [List.filter_eq_nil_iff]
    intro p hp
    simp only [List.mem_map] at hp
    obtain ⟨c, hc, rfl⟩ := hp
    simp [h c hc]
  unfold categorize
  rw [hnil]

/-- Witness for the amended C6 at the keyword "qqq". -/
theorem categorize_no_match_default_witness :
    categorize CATEGORIES "qqq" = "General Marketing" :=
  categorize_no_match_default CATEGORIES "qqq" (by decide)

/-! ## Claim theorems: sentiment scorer -/

/-- C2: for every outcome of the external call, the returned score lies within
[-1, 1]; an exception returns exactly 0, and a response whose stripped text
contains no numeric token returns exactly 0 — no failure escapes, since the
scorer is a total function into ℚ. -/
theorem analyze_sentiment_bounds_and_failures (response : Except Unit String) :
    -1 ≤ analyze_sentiment response ∧ analyze_sentiment response ≤ 1 ∧
      (∀ e, response = Except.error e → analyze_sentiment response = 0) ∧
      (∀ text, response = Except.ok text → findNums (stripL text.data) = [] →
        analyze_sentiment response = 0) := by
  cases response with
  | error e =>
    refine ⟨by norm_num [analyze_sentiment], by norm_num [analyze_sentiment], ?_, ?_⟩
    · intro _ _
      rfl
    · intro _ hcontra _
      exact absurd hcontra (by simp)
  | ok text =>
    cases hts : findNums (stripL text.data) with
    | nil =>
      refine ⟨?_, ?_, ?_, ?_⟩
      · simp only [analyze_sentiment, hts]
        norm_num
      · simp only [analyze_sentiment, hts]
        norm_num
      · intro _ hcontra
        exact absurd hcontra (by simp)
      · intro t ht _
        simp only [analyze_sentiment, hts]
    | cons tok toks =>
      have hval : analyze_sentiment (Except.ok text) =
          pyMax (-1) (pyMin 1 (tokenToRat tok)) := by
        simp only [analyze_sentiment, hts]
      refine ⟨?_, ?_, ?_, ?_⟩
      · rw [hval]
        unfold pyMax pyMin
        split_ifs <;> linarith
      · rw [hval]
        unfold pyMax pyMin
        split_ifs <;> linarith
      · intro _ hcontra
        exact absurd hcontra (by simp)
      · intro t ht hnil
        rw [Except.ok.injEq] at ht
        rw [← ht] at hnil
        rw [hnil] at hts
        exact absurd hts (by simp)

/-- Witness for C2: the exception case concretely returns 0. -/
theorem analyze_sentiment_bounds_and_failures_witness :
    analyze_sentiment (Except.error ()) = 0 :=
  (analyze_sentiment_bounds_and_failures (Except.error ())).2.2.1 () rfl

/-! ## Helper lemmas: booleans -/

theorem boolNotTrueIff {b : Bool} : (!b) = true ↔ b = false := by
  cases b <;> simp

/-! ## Helper lemmas: SQLite text order -/

theorem textLt_irrefl : ∀ l : List Char, textLt l l = false
  | [] => rfl
  | c :: cs => by
    unfold textLt
    rw [if_neg (lt_irrefl c), if_neg (lt_irrefl c)]
    exact textLt_irrefl cs

theorem textLt_asymm : ∀ a b : List Char, textLt a b = true → textLt b a = false
  | [], [] => fun h => by simp [textLt] at h
  | [], _ :: _ => fun _ => rfl
  | _ :: _, [] => fun h => by simp [textLt] at h
  | a :: as_, b :: bs => by
    intro h
    unfold textLt at h ⊢
    by_cases hab : a < b
    · rw [if_neg (asymm hab), if_pos hab]
    · by_cases hba : b < a
      · rw [if_neg hab, if_pos hba] at h
        exact absurd h (by decide)
      · rw [if_neg hab, if_neg hba] at h
        rw [if_neg hba, if_neg hab]
        exact textLt_asymm as_ bs h

/-! ## Claim theorems: menu prompts -/

/-- C7: any menu input whose stripped text is not a digit string makes every
numeric prompt proceed with its stated default (view-recent days 7 and limit
50, top-keywords days 7 and N 20, export days 30, purge days 90); each parse
consumes the single input line, so no re-prompt occurs. -/
theorem menu_invalid_input_defaults (raw : String)
    (h : pyIsDigit (stripL raw.data) = false) :
    viewRecentDaysParam raw = 7 ∧ viewRecentLimitParam raw = 50 ∧
      topKeywordsDaysParam raw = 7 ∧ topKeywordsNParam raw = 20 ∧
      exportDaysParam raw = 30 ∧ purgeDaysParam raw = 90 := by
  unfold viewRecentDaysParam viewRecentLimitParam topKeywordsDaysParam topKeywordsNParam
    exportDaysParam purgeDaysParam menuNumber
  simp [h]

/-- Witness for C7 at the invalid input " -5x ". -/
theorem menu_invalid_input_defaults_witness :
    pyIsDigit (stripL (" -5x " : String).data) = false ∧
      (viewRecentDaysParam " -5x " = 7 ∧ viewRecentLimitParam " -5x " = 50 ∧
        topKeywordsDaysParam " -5x " = 7 ∧ topKeywordsNParam " -5x " = 20 ∧
        exportDaysParam " -5x " = 30 ∧ purgeDaysParam " -5x " = 90) :=
  ⟨by decide, menu_invalid_input_defaults " -5x " (by decide)⟩

/-! ## Claim theorems: purge -/

/-- C4: after `clear_old_data` runs with an affirmative confirmation, every
stored observation dated strictly before the threshold is removed, and every
observation dated strictly after the threshold remains. -/
theorem clear_old_data_purges (threshold confirm : String) (rows : List Obs)
    (hc : (⟨lowerL confirm.data⟩ : String) = "yes") :
    (∀ r ∈ rows, olderThan threshold r = true →
      r ∉ (clear_old_data threshold confirm rows).1) ∧
    (∀ r ∈ rows, textLt threshold.data (dateOf r) = true →
      r ∈ (clear_old_data threshold confirm rows).1) := by
  unfold clear_old_data
  by_cases h0 : (rows.filter (olderThan threshold)).length = 0
  · rw [if_pos h0]
    have hnone : ∀ r ∈ rows, olderThan threshold r = false := by
      intro r hr
      by_contra hcon
      have hmem : r ∈ rows.filter (olderThan threshold) :=
        List.mem_filter.mpr ⟨hr, Bool.of_not_eq_false hcon⟩
      rw [List.length_eq_zero.mp h0] at hmem
      exact absurd hmem (List.not_mem_nil r)
    constructor
    · intro r hr hold
      rw [hnone r hr] at hold
      exact absurd hold (by decide)
    · intro r hr _
      exact hr
  · rw [if_neg h0, if_pos hc]
    constructor
    · intro r hr hold hmem
      have hkeep := (List.mem_filter.mp hmem).2
      rw [hold] at hkeep
      exact absurd hkeep (by decide)
    · intro r hr hnew
      refine List.mem_filter.mpr ⟨hr, ?_⟩
      rw [olderThan, textLt_asymm threshold.data (dateOf r) hnew]
      rfl

/-- Witness for C4: the confirmation "Yes" lowers to "yes" and the purge facts
hold on a two-row store at the threshold 2024-01-02. -/
theorem clear_old_data_purges_witness :
    (∀ r ∈ [aObs1, aObs2], olderThan "2024-01-02" r = true →
      r ∉ (clear_old_data "2024-01-02" "Yes" [aObs1, aObs2]).1) ∧
    (∀ r ∈ [aObs1, aObs2], textLt ("2024-01-02" : String).data (dateOf r) = true →
      r ∈ (clear_old_data "2024-01-02" "Yes" [aObs1, aObs2]).1) :=
  clear_old_data_purges "2024-01-02" "Yes" [aObs1, aObs2] (by decide)

/-- C10: `clear_old_data` leaves the table unchanged whenever the lowered
confirmation differs from "yes", and when no row is older than the threshold
it returns at once, unchanged and without requesting any confirmation. -/
theorem clear_old_data_guard (threshold confirm : String) (rows : List Obs) :
    ((⟨lowerL confirm.data⟩ : String) ≠ "yes" →
      (clear_old_data threshold confirm rows).1 = rows) ∧
    ((rows.filter (olderThan threshold)).length = 0 →
      clear_old_data threshold confirm rows = (rows, false)) := by
  unfold clear_old_data
  constructor
  · intro hne
    by_cases h0 : (rows.filter (olderThan threshold)).length = 0
    · rw [if_pos h0]
    · rw [if_neg h0, if_neg hne]
  · intro h0
    rw [if_pos h0]

/-- Witness for C10: the reply "no" leaves a nonempty store unchanged, and a
store with nothing old is returned unchanged without prompting. -/
theorem clear_old_data_guard_witness :
    (clear_old_data "2024-01-02" "no" [aObs1, aObs2]).1 = [aObs1, aObs2] ∧
      clear_old_data "2024-01-01" "whatever" [aObs1, aObs2] = ([aObs1, aObs2], false) :=
  ⟨(clear_old_data_guard "2024-01-02" "no" [aObs1, aObs2]).1 (by decide),
   (clear_old_data_guard "2024-01-01" "whatever" [aObs1, aObs2]).2 (by decide)⟩

/-! ## Claim theorems: purge and read windows -/

/-- C9 as amended: for one threshold, the rows the purge would delete (date
strictly before the threshold) and the rows the CSV export returns — equally,
the rows the recent-trends view selects before its LIMIT truncation — (date at
or after the threshold) are disjoint and together cover the store; a row dated
exactly on the threshold survives an affirmed purge and is selected by the
reads; and the rows the view actually returns all lie inside that selection. -/
theorem purge_read_partition (threshold : String) (limit : Nat) (rows : List Obs) :
    (∀ r ∈ rows, ¬(olderThan threshold r = true ∧ r ∈ exportSelect threshold rows)) ∧
    (∀ r ∈ rows, olderThan threshold r = true ∨ r ∈ exportSelect threshold rows) ∧
    (∀ r ∈ rows,
      r ∈ (clear_old_data threshold "yes" rows).1 ↔ olderThan threshold r = false) ∧
    (∀ r ∈ rows, dateOf r = threshold.data →
      r ∈ exportSelect threshold rows ∧ r ∈ (clear_old_data threshold "yes" rows).1) ∧
    (∀ r ∈ view_recent_trends threshold limit rows, r ∈ exportSelect threshold rows) := by
  have hmemsel : ∀ r ∈ rows,
      (r ∈ exportSelect threshold rows ↔ olderThan threshold r = false) := by
    intro r hr
    unfold exportSelect
    constructor
    · intro hm
      exact boolNotTrueIff.mp (List.mem_filter.mp hm).2
    · intro hb
      exact List.mem_filter.mpr ⟨hr, boolNotTrueIff.mpr hb⟩
  have hclear : ∀ r ∈ rows,
      (r ∈ (clear_old_data threshold "yes" rows).1 ↔ olderThan threshold r = false) := by
    intro r hr
    unfold clear_old_data
    by_cases h0 : (rows.filter (olderThan threshold)).length = 0
    · rw [if_pos h0]
      have hnone : olderThan threshold r = false := by
        by_contra hcon
        have hmem : r ∈ rows.filter (olderThan threshold) :=
          List.mem_filter.mpr ⟨hr, Bool.of_not_eq_false hcon⟩
        rw [List.length_eq_zero.mp h0] at hmem
        exact absurd hmem (List.not_mem_nil r)
      exact ⟨fun _ => hnone, fun _ => hr⟩
    · rw [if_neg h0, if_pos (show (⟨lowerL ("yes" : String).data⟩ : String) = "yes" by decide)]
      constructor
      · intro hm
        exact boolNotTrueIff.mp (List.mem_filter.mp hm).2
      · intro hb
        exact List.mem_filter.mpr ⟨hr, boolNotTrueIff.mpr hb⟩
  refine ⟨?_, ?_, hclear, ?_, ?_⟩
  · intro r hr hand
    have hsel := (hmemsel r hr).mp hand.2
    rw [hand.1] at hsel
    exact absurd hsel (by decide)
  · intro r hr
    cases hb : olderThan threshold r
    · exact Or.inr ((hmemsel r hr).mpr hb)
    · exact Or.inl rfl
  · intro r hr hdate
    have hfalse : olderThan threshold r = false := by
      unfold olderThan
      rw [hdate]
      exact textLt_irrefl threshold.data
    exact ⟨(hmemsel r hr).mpr hfalse, (hclear r hr).mpr hfalse⟩
  · intro r hrv
    unfold view_recent_trends at hrv
    have h1 := (List.take_sublist limit _).subset hrv
    exact (List.mem_insertionSort _).mp h1

/-- Witness for C9: on the example store with threshold 2024-01-02, the row
dated exactly on the threshold is selected by the reads and survives the purge. -/
theorem purge_read_partition_witness :
    aObs2 ∈ exportSelect "2024-01-02" [aObs1, aObs2] ∧
      aObs2 ∈ (clear_old_data "2024-01-02" "yes" [aObs1, aObs2]).1 :=
  (purge_read_partition "2024-01-02" 50 [aObs1, aObs2]).2.2.2.1 aObs2
    (by decide) (by decide)

/-- C9 counterexample: with threshold 2024-01-01 and LIMIT 1, the second fresh
row is neither deleted by the purge predicate nor returned by the
recent-trends view, so the deleted rows and the rows the view returns do not
cover the store. -/
theorem view_limit_breaks_cover :
    cObs2 ∈ ([cObs1, cObs2] : List Obs) ∧ olderThan "2024-01-01" cObs2 = false ∧
      cObs2 ∉ view_recent_trends "2024-01-01" 1 [cObs1, cObs2] := by
  refine ⟨by decide, by decide, ?_⟩
  have hfilter : ([cObs1, cObs2] : List Obs).filter
      (fun r => !olderThan "2024-01-01" r) = [cObs1, cObs2] := by decide
  have hkey : viewKey cObs2 ≤ viewKey cObs1 := by
    norm_num [viewKey, cObs1, cObs2]
  have hsort : List.insertionSort (fun a b : Obs => viewKey b ≤ viewKey a) [cObs1, cObs2]
      = [cObs1, cObs2] := by
    simp [List.insertionSort, List.orderedInsert, hkey]
  unfold view_recent_trends
  rw [hfilter, hsort]
  decide

/-! ## Claim theorems: trend processing -/

/-- C8: every record leaving `process_trends` carries an engagement score; a
record arriving without one (as Google Trends records do) gets
`engagement_score = volume`, making its combined ranking score exactly twice
its volume. -/
theorem process_trends_fills_engagement (sentimentOf : String → ℚ) (trends : List RawTrend) :
    (∀ t ∈ process_trends sentimentOf trends, t.engagement_score.isSome = true) ∧
    (∀ t ∈ trends, t.engagement_score = none →
      (processTrend sentimentOf t).engagement_score = some ((t.volume.getD 0 : Int) : ℚ) ∧
      combinedScore (processTrend sentimentOf t) = 2 * ((t.volume.getD 0 : Int) : ℚ)) := by
  constructor
  · intro t ht
    obtain ⟨t0, _, rfl⟩ := List.mem_map.mp ht
    rfl
  · intro t _ hnone
    constructor
    · unfold processTrend
      rw [hnone]
      rfl
    · simp only [combinedScore, processTrend, hnone, Option.getD_none, Option.getD_some]
      ring

/-- Witness for C8 on a Google-Trends-style record with volume 7 and no
engagement score. -/
theorem process_trends_fills_engagement_witness :
    (processTrend (fun _ => 0) gTrend).engagement_score
        = some ((gTrend.volume.getD 0 : Int) : ℚ) ∧
      combinedScore (processTrend (fun _ => 0) gTrend)
        = 2 * ((gTrend.volume.getD 0 : Int) : ℚ) :=
  (process_trends_fills_engagement (fun _ => 0) [gTrend]).2 gTrend
    (List.mem_singleton.mpr rfl) rfl

/-! ## Helper lemmas: CSV splitting and character classes -/

theorem splitOnChar_of_not_mem (sep : Char) :
    ∀ l : List Char, sep ∉ l → splitOnChar sep l = [l]
  | [], _ => rfl
  | c :: cs, h => by
    have hc : c ≠ sep := fun hcs => h (hcs ▸ List.mem_cons_self c cs)
    have hcs : sep ∉ cs := fun hm => h (List.mem_cons_of_mem c hm)
    conv_lhs => rw [splitOnChar]
    rw [if_neg hc, splitOnChar_of_not_mem sep cs hcs]

theorem splitOnChar_append (sep : Char) :
    ∀ l r : List Char, sep ∉ l →
      splitOnChar sep (l ++ sep :: r) = l :: splitOnChar sep r
  | [], r, _ => by
    rw [List.nil_append]
    conv_lhs => rw [splitOnChar]
    rw [if_pos rfl]
  | c :: cs, r, h => by
    have hc : c ≠ sep := fun hcs => h (hcs ▸ List.mem_cons_self c cs)
    have hcs : sep ∉ cs := fun hm => h (List.mem_cons_of_mem c hm)
    rw [List.cons_append]
    conv_lhs => rw [splitOnChar]
    rw [if_neg hc, splitOnChar_append sep cs r hcs]

theorem digitChar_isDigit (d : Nat) (h : d < 10) : (Char.ofNat (48 + d)).isDigit = true := by
  interval_cases d <;> decide

theorem natDigitsAux_all_digits :
    ∀ fuel n : Nat, ∀ c ∈ natDigitsAux fuel n, c.isDigit = true
  | 0, _ => by
    intro c hc
    exact absurd hc (List.not_mem_nil c)
  | fuel + 1, n => by
    intro c hc
    unfold natDigitsAux at hc
    by_cases h0 : n = 0
    · rw [if_pos h0] at hc
      exact absurd hc (List.not_mem_nil c)
    · rw [if_neg h0] at hc
      rcases List.mem_append.mp hc with hm | hm
      · exact natDigitsAux_all_digits fuel (n / 10) c hm
      · rw [List.mem_singleton.mp hm]
        exact digitChar_isDigit (n % 10) (Nat.mod_lt n (by norm_num))

theorem not_mem_natStrL (c : Char) (hc : c.isDigit = false) (n : Nat) : c ∉ natStrL n := by
  intro hm
  unfold natStrL at hm
  by_cases h0 : n = 0
  · rw [if_pos h0] at hm
    rw [List.mem_singleton.mp hm] at hc
    exact absurd hc (by decide)
  · rw [if_neg h0] at hm
    have hd := natDigitsAux_all_digits n n c hm
    rw [hc] at hd
    exact absurd hd (by decide)

theorem not_mem_intStrL (c : Char) (hc : c.isDigit = false) (hmns : c ≠ '-') (i : Int) :
    c ∉ intStrL i := by
  intro hmem
  unfold intStrL at hmem
  by_cases hneg : i < 0
  · rw [if_pos hneg] at hmem
    rcases List.mem_cons.mp hmem with h | h
    · exact hmns h
    · exact not_mem_natStrL c hc i.natAbs h
  · rw [if_neg hneg] at hmem
    exact not_mem_natStrL c hc i.natAbs hmem

theorem not_mem_ratStrL (c : Char) (hc : c.isDigit = false) (hmns : c ≠ '-')
    (hsl : c ≠ '/') (q : ℚ) : c ∉ ratStrL q := by
  intro hmem
  unfold ratStrL at hmem
  by_cases h1 : q.den = 1
  · rw [if_pos h1] at hmem
    exact not_mem_intStrL c hc hmns q.num hmem
  · rw [if_neg h1] at hmem
    rcases List.mem_append.mp hmem with h | h
    · exact not_mem_intStrL c hc hmns q.num h
    · rcases List.mem_cons.mp h with h | h
      · exact hsl h
      · exact not_mem_natStrL c hc q.den h

theorem not_mem_escKw (c : Char) (hc : c ≠ ';') (r : Obs) (h : c ∉ r.keyword.data) :
    c ∉ escKw r := by
  intro hm
  obtain ⟨y, hy, hyc⟩ := List.mem_map.mp hm
  by_cases hyy : y = ','
  · rw [if_pos hyy] at hyc
    exact hc hyc.symm
  · rw [if_neg hyy] at hyc
    exact h (hyc ▸ hy)

theorem escKw_no_comma (r : Obs) : ',' ∉ escKw r := by
  intro hm
  obtain ⟨y, hy, hyc⟩ := List.mem_map.mp hm
  by_cases hyy : y = ','
  · rw [if_pos hyy] at hyc
    exact absurd hyc (by decide)
  · rw [if_neg hyy] at hyc
    exact hyy hyc

theorem not_mem_tailFields (r : Obs) (c : Char) (hc : c.isDigit = false)
    (hm1 : c ≠ ',') (hm2 : c ≠ '-') (hm3 : c ≠ '/')
    (hp : c ∉ r.platform.data) (hcg : c ∉ r.category.data) (ht : c ∉ r.timestamp.data) :
    c ∉ tailFields r := by
  intro hm
  unfold tailFields at hm
  rcases List.mem_append.mp hm with hm | hm
  · exact hp hm
  rcases List.mem_cons.mp hm with hm | hm
  · exact hm1 hm
  rcases List.mem_append.mp hm with hm | hm
  · exact hcg hm
  rcases List.mem_cons.mp hm with hm | hm
  · exact hm1 hm
  rcases List.mem_append.mp hm with hm | hm
  · exact not_mem_intStrL c hc hm2 _ hm
  rcases List.mem_cons.mp hm with hm | hm
  · exact hm1 hm
  rcases List.mem_append.mp hm with hm | hm
  · exact not_mem_ratStrL c hc hm2 hm3 _ hm
  rcases List.mem_cons.mp hm with hm | hm
  · exact hm1 hm
  rcases List.mem_append.mp hm with hm | hm
  · exact not_mem_ratStrL c hc hm2 hm3 _ hm
  rcases List.mem_cons.mp hm with hm | hm
  · exact hm1 hm
  · exact ht hm

theorem csvLine_eq (r : Obs) :
    csvLine r = '"' :: (escKw r ++ '"' :: ',' :: tailFields r) := by
  simp [csvLine, escKw, tailFields]

theorem csvLine_no_newline (r : Obs) (h : csvSafe r) : '\n' ∉ csvLine r := by
  obtain ⟨⟨-, hkn⟩, hf⟩ := h
  have hp := hf r.platform.data (by simp)
  have hcg := hf r.category.data (by simp)
  have ht := hf r.timestamp.data (by simp)
  rw [csvLine_eq]
  intro hm
  rcases List.mem_cons.mp hm with hm | hm
  · exact absurd hm (by decide)
  rcases List.mem_append.mp hm with hm | hm
  · exact not_mem_escKw '\n' (by decide) r hkn hm
  rcases List.mem_cons.mp hm with hm | hm
  · exact absurd hm (by decide)
  rcases List.mem_cons.mp hm with hm | hm
  · exact absurd hm (by decide)
  · exact not_mem_tailFields r '\n' (by decide) (by decide) (by decide) (by decide)
      hp.2.2 hcg.2.2 ht.2.2 hm

theorem splitTailFields (r : Obs) (h : csvSafe r) :
    splitOnChar ',' (tailFields r) =
      [r.platform.data, r.category.data, intStrL r.volume,
       ratStrL r.sentiment_score, ratStrL r.engagement_score, r.timestamp.data] := by
  obtain ⟨-, hf⟩ := h
  have hp := hf r.platform.data (by simp)
  have hcg := hf r.category.data (by simp)
  have ht := hf r.timestamp.data (by simp)
  have hv : ',' ∉ intStrL r.volume := not_mem_intStrL ',' (by decide) (by decide) _
  have hs : ',' ∉ ratStrL r.sentiment_score :=
    not_mem_ratStrL ',' (by decide) (by decide) (by decide) _
  have he : ',' ∉ ratStrL r.engagement_score :=
    not_mem_ratStrL ',' (by decide) (by decide) (by decide) _
  unfold tailFields
  rw [splitOnChar_append ',' _ _ hp.1, splitOnChar_append ',' _ _ hcg.1,
      splitOnChar_append ',' _ _ hv, splitOnChar_append ',' _ _ hs,
      splitOnChar_append ',' _ _ he, splitOnChar_of_not_mem ',' _ ht.1]

theorem parseCsvLine_csvLine (r : Obs) (h : csvSafe r) :
    parseCsvLine (csvLine r) = some (csvFields r) := by
  have hkq : '"' ∉ r.keyword.data := h.1.1
  have hp := h.2 r.platform.data (by simp)
  have hcg := h.2 r.category.data (by simp)
  have ht := h.2 r.timestamp.data (by simp)
  have hkE : '"' ∉ escKw r := not_mem_escKw '"' (by decide) r hkq
  have htail : '"' ∉ ',' :: tailFields r := by
    intro hm
    rcases List.mem_cons.mp hm with hm | hm
    · exact absurd hm (by decide)
    · exact not_mem_tailFields r '"' (by decide) (by decide) (by decide) (by decide)
        hp.2.1 hcg.2.1 ht.2.1 hm
  rw [csvLine_eq]
  simp only [parseCsvLine, if_true]
  rw [splitOnChar_append '"' _ _ hkE,
      splitOnChar_of_not_mem '"' _ htail]
  show (if (',' : Char) = ',' then some (escKw r :: splitOnChar ',' (tailFields r)) else none)
      = some (csvFields r)
  rw [if_pos rfl, splitTailFields r h]
  rfl

theorem splitOnChar_newline_flatten :
    ∀ lines : List (List Char), (∀ l ∈ lines, '\n' ∉ l) →
      splitOnChar '\n' ((lines.map (fun l => l ++ ['\n'])).flatten) = lines ++ [[]]
  | [], _ => rfl
  | l :: ls, h => by
    have hl : '\n' ∉ l := h l (List.mem_cons_self l ls)
    have hls : ∀ x ∈ ls, '\n' ∉ x := fun x hx => h x (List.mem_cons_of_mem l hx)
    show splitOnChar '\n' ((l ++ ['\n']) ++ (ls.map (fun l => l ++ ['\n'])).flatten)
        = (l :: ls) ++ [[]]
    rw [List.append_assoc, List.singleton_append, splitOnChar_append '\n' l _ hl,
      splitOnChar_newline_flatten ls hls]
    rfl

theorem csvContent_split (rows : List Obs) (h : ∀ r ∈ rows, csvSafe r) :
    splitOnChar '\n' (csvContent rows) = csvHeader :: (rows.map csvLine ++ [[]]) := by
  unfold csvContent
  rw [splitOnChar_append '\n' csvHeader _ (by decide)]
  have hmm : rows.map (fun r => csvLine r ++ ['\n'])
      = (rows.map csvLine).map (fun l => l ++ ['\n']) := by
    rw [List.map_map]
    rfl
  rw [hmm, splitOnChar_newline_flatten (rows.map csvLine) ?_]
  intro l hl
  obtain ⟨r, hr, rfl⟩ := List.mem_map.mp hl
  exact csvLine_no_newline r (h r hr)

theorem parseAllLines_map : ∀ rows : List Obs, (∀ r ∈ rows, csvSafe r) →
    parseAllLines (rows.map csvLine) = some (rows.map csvFields)
  | [], _ => rfl
  | r :: rows, h => by
    show parseAllLines (csvLine r :: rows.map csvLine) = _
    unfold parseAllLines
    rw [parseCsvLine_csvLine r (h r (List.mem_cons_self r rows)),
        parseAllLines_map rows (fun x hx => h x (List.mem_cons_of_mem r hx))]
    rfl

/-! ## Claim theorems: CSV export -/

/-- C5 counterexample: a stored observation whose keyword embeds a newline
lies inside the export window, yet the exported file holds two data rows for
this single observation, so the file does not have exactly N data rows and the
round trip fails. -/
theorem export_newline_breaks_roundtrip :
    exportSelect "2024-01-01" [badObs] = [badObs] ∧
      (((splitOnChar '\n' (export_to_csv "2024-01-01" [badObs])).drop 1).dropLast).length
        = 2 := by
  decide

/-- C5 as amended: for every stored observation set whose keywords contain no
double quote or newline and whose platform, category and timestamp fields
contain no comma, double quote or newline, `export_to_csv` writes one header
row followed by exactly one data row per observation of the export window, in
the column order keyword/platform/category/volume/sentiment/engagement/
timestamp with the keyword quoted, and re-parsing the file yields the same
field values except that each comma inside the keyword is replaced by a
semicolon. -/
theorem export_to_csv_roundtrip (threshold : String) (rows : List Obs)
    (h : ∀ r ∈ rows, csvSafe r) :
    ∃ sel : List Obs,
      export_to_csv threshold rows = csvContent sel ∧
      sel.length = (exportSelect threshold rows).length ∧
      (∀ r, r ∈ sel ↔ r ∈ exportSelect threshold rows) ∧
      splitOnChar '\n' (export_to_csv threshold rows) =
        csvHeader :: (sel.map csvLine ++ [[]]) ∧
      parseCsv (export_to_csv threshold rows) = some (sel.map csvFields) := by
  have hselSafe : ∀ r ∈ List.insertionSort
      (fun a b => textLt a.timestamp.data b.timestamp.data = false)
      (exportSelect threshold rows), csvSafe r := by
    intro r hr
    have hrm : r ∈ exportSelect threshold rows := (List.mem_insertionSort _).mp hr
    exact h r (List.mem_filter.mp hrm).1
  refine ⟨List.insertionSort
      (fun a b => textLt a.timestamp.data b.timestamp.data = false)
      (exportSelect threshold rows),
    rfl, List.length_insertionSort _ _, fun r => List.mem_insertionSort _, ?_, ?_⟩
  · exact csvContent_split _ hselSafe
  · show parseCsv (csvContent _) = _
    unfold parseCsv
    rw [csvContent_split _ hselSafe]
    rw [List.drop_one, List.tail_cons, List.dropLast_concat]
    exact parseAllLines_map _ hselSafe

/-- Witness for the amended C5 on a one-row store. -/
theorem export_to_csv_roundtrip_witness :
    ∃ sel : List Obs,
      export_to_csv "2024-01-01" [aObs1] = csvContent sel ∧
      sel.length = (exportSelect "2024-01-01" [aObs1]).length ∧
      (∀ r, r ∈ sel ↔ r ∈ exportSelect "2024-01-01" [aObs1]) ∧
      splitOnChar '\n' (export_to_csv "2024-01-01" [aObs1]) =
        csvHeader :: (sel.map csvLine ++ [[]]) ∧
      parseCsv (export_to_csv "2024-01-01" [aObs1]) = some (sel.map csvFields) :=
  export_to_csv_roundtrip "2024-01-01" [aObs1] (by decide)

/-! ## Helper lemmas: aggregation -/

theorem findAgg_updateAgg (t : Obs) (k : String) :
    ∀ l : List KeywordAgg, findAgg (updateAgg l t) k =
      if t.keyword = k then some (applyTrend ((findAgg l k).getD (emptyAgg k)) t)
      else findAgg l k
  | [] => by
    by_cases hk : t.keyword = k
    · subst hk
      simp [findAgg, updateAgg, List.find?, applyTrend, emptyAgg]
    · have hbf : (t.keyword == k) = false := by simp [hk]
      simp [findAgg, updateAgg, List.find?, applyTrend, emptyAgg, hk, hbf]
  | a :: rest => by
    unfold updateAgg
    by_cases hat : a.keyword = t.keyword
    · rw [if_pos hat]
      by_cases hk : t.keyword = k
      · subst hk
        unfold findAgg
        rw [List.find?_cons_of_pos _ (by simp [applyTrend, hat]),
            List.find?_cons_of_pos _ (by simp [hat]), if_pos rfl]
        rfl
      · unfold findAgg
        rw [List.find?_cons_of_neg _ (by simp [applyTrend]; exact fun h => hk (hat ▸ h)),
            if_neg hk, List.find?_cons_of_neg _ (by simp; exact fun h => hk (hat ▸ h))]
    · rw [if_neg hat]
      by_cases hak : a.keyword = k
      · have hk : ¬ t.keyword = k := fun hkk => hat (by rw [hkk, hak])
        unfold findAgg
        rw [List.find?_cons_of_pos _ (by simp [hak]),
            if_neg hk, List.find?_cons_of_pos _ (by simp [hak])]
      · unfold findAgg
        rw [List.find?_cons_of_neg _ (by simp [hak]),
            List.find?_cons_of_neg _ (by simp [hak])]
        exact findAgg_updateAgg t k rest

theorem findAgg_foldl (k : String) :
    ∀ (ts : List Obs) (l : List KeywordAgg),
      findAgg (ts.foldl updateAgg l) k = aggFold (findAgg l k) k ts
  | [], _ => rfl
  | t :: ts, l => by
    have h1 : (t :: ts).foldl updateAgg l = ts.foldl updateAgg (updateAgg l t) := rfl
    have h2 : aggFold (findAgg l k) k (t :: ts)
        = aggFold (if t.keyword = k
            then some (applyTrend ((findAgg l k).getD (emptyAgg k)) t)
            else findAgg l k) k ts := rfl
    rw [h1, h2, ← findAgg_updateAgg t k l]
    exact findAgg_foldl k ts (updateAgg l t)

theorem aggFold_some (k : String) :
    ∀ (ts : List Obs) (a : KeywordAgg),
      aggFold (some a) k ts
        = some ((ts.filter (fun t => t.keyword = k)).foldl applyTrend a)
  | [], _ => rfl
  | t :: ts, a => by
    by_cases hk : t.keyword = k
    · have h1 : aggFold (some a) k (t :: ts) = aggFold (some (applyTrend a t)) k ts := by
        unfold aggFold
        simp only [List.foldl_cons]
        rw [if_pos hk]
        rfl
      have h2 : (t :: ts).filter (fun t => t.keyword = k)
          = t :: ts.filter (fun t => t.keyword = k) := by
        simp [List.filter_cons, hk]
      rw [h1, aggFold_some k ts (applyTrend a t), h2]
      rfl
    · have h1 : aggFold (some a) k (t :: ts) = aggFold (some a) k ts := by
        unfold aggFold
        simp only [List.foldl_cons]
        rw [if_neg hk]
      have h2 : (t :: ts).filter (fun t => t.keyword = k)
          = ts.filter (fun t => t.keyword = k) := by
        simp [List.filter_cons, hk]
      rw [h1, aggFold_some k ts a, h2]

theorem aggFold_none_of_filter_ne (k : String) :
    ∀ ts : List Obs, ts.filter (fun t => t.keyword = k) ≠ [] →
      aggFold none k ts
        = some ((ts.filter (fun t => t.keyword = k)).foldl applyTrend (emptyAgg k))
  | [], h => absurd rfl h
  | t :: ts, h => by
    by_cases hk : t.keyword = k
    · have h1 : aggFold none k (t :: ts)
          = aggFold (some (applyTrend (emptyAgg k) t)) k ts := by
        unfold aggFold
        simp only [List.foldl_cons]
        rw [if_pos hk]
        rfl
      have h2 : (t :: ts).filter (fun t => t.keyword = k)
          = t :: ts.filter (fun t => t.keyword = k) := by
        simp [List.filter_cons, hk]
      rw [h1, aggFold_some k ts (applyTrend (emptyAgg k) t), h2]
      rfl
    · have h1 : aggFold none k (t :: ts) = aggFold none k ts := by
        unfold aggFold
        simp only [List.foldl_cons]
        rw [if_neg hk]
      have h2 : (t :: ts).filter (fun t => t.keyword = k)
          = ts.filter (fun t => t.keyword = k) := by
        simp [List.filter_cons, hk]
      rw [h2] at h
      rw [h1, h2]
      exact aggFold_none_of_filter_ne k ts h

theorem updateAgg_keys (t : Obs) : ∀ l : List KeywordAgg,
    (updateAgg l t).map KeywordAgg.keyword =
      if t.keyword ∈ l.map KeywordAgg.keyword then l.map KeywordAgg.keyword
      else l.map KeywordAgg.keyword ++ [t.keyword]
  | [] => by simp [updateAgg, applyTrend, emptyAgg]
  | a :: rest => by
    unfold updateAgg
    by_cases hat : a.keyword = t.keyword
    · rw [if_pos hat, if_pos (by
        rw [List.map_cons]
        exact List.mem_cons.mpr (Or.inl hat.symm))]
      simp [applyTrend, hat]
    · rw [if_neg hat]
      simp only [List.map_cons]
      rw [updateAgg_keys t rest]
      by_cases hm : t.keyword ∈ rest.map KeywordAgg.keyword
      · rw [if_pos hm, if_pos (List.mem_cons.mpr (Or.inr hm))]
      · rw [if_neg hm, if_neg (by
          simp only [List.mem_cons]
          rintro (h | h)
          · exact hat h.symm
          · exact hm h)]
        simp

theorem updateAgg_keys_nodup (t : Obs) (l : List KeywordAgg)
    (h : (l.map KeywordAgg.keyword).Nodup) :
    ((updateAgg l t).map KeywordAgg.keyword).Nodup := by
  rw [updateAgg_keys]
  by_cases hm : t.keyword ∈ l.map KeywordAgg.keyword
  · rw [if_pos hm]
    exact h
  · rw [if_neg hm]
    refine List.Nodup.append h (List.nodup_singleton _) ?_
    intro x hx hy
    rw [List.mem_singleton] at hy
    exact hm (hy ▸ hx)

theorem foldl_updateAgg_keys_nodup : ∀ (ts : List Obs) (l : List KeywordAgg),
    (l.map KeywordAgg.keyword).Nodup →
      ((ts.foldl updateAgg l).map KeywordAgg.keyword).Nodup
  | [], _, h => h
  | t :: ts, l, h =>
    foldl_updateAgg_keys_nodup ts (updateAgg l t) (updateAgg_keys_nodup t l h)

theorem foldl_updateAgg_keys_mem (k : String) : ∀ (ts : List Obs) (l : List KeywordAgg),
    k ∈ (ts.foldl updateAgg l).map KeywordAgg.keyword ↔
      k ∈ l.map KeywordAgg.keyword ∨ k ∈ ts.map Obs.keyword
  | [], l => by simp
  | t :: ts, l => by
    rw [show (t :: ts).foldl updateAgg l = ts.foldl updateAgg (updateAgg l t) from rfl,
        foldl_updateAgg_keys_mem k ts (updateAgg l t), updateAgg_keys]
    by_cases hm : t.keyword ∈ l.map KeywordAgg.keyword
    · rw [if_pos hm]
      simp only [List.map_cons, List.mem_cons]
      constructor
      · rintro (h | h)
        · exact Or.inl h
        · exact Or.inr (Or.inr h)
      · rintro (h | h | h)
        · exact Or.inl h
        · exact Or.inl (h ▸ hm)
        · exact Or.inr h
    · rw [if_neg hm]
      simp only [List.mem_append, List.mem_singleton, List.map_cons, List.mem_cons]
      tauto

theorem findAgg_of_mem : ∀ l : List KeywordAgg, (l.map KeywordAgg.keyword).Nodup →
    ∀ a ∈ l, findAgg l a.keyword = some a
  | [], _, a, ha => absurd ha (List.not_mem_nil a)
  | b :: rest, h, a, ha => by
    rw [List.map_cons, List.nodup_cons] at h
    rcases List.mem_cons.mp ha with rfl | ha2
    · unfold findAgg
      simp [List.find?_cons]
    · have hbf : (b.keyword == a.keyword) = false := by
        simp only [beq_eq_false_iff_ne, ne_eq]
        intro heq
        exact h.1 (heq ▸ List.mem_map_of_mem KeywordAgg.keyword ha2)
      unfold findAgg
      simp only [List.find?_cons, hbf]
      exact findAgg_of_mem rest h.2 a ha2

theorem mem_addToSet (x y : String) (l : List String) :
    y ∈ addToSet l x ↔ y ∈ l ∨ y = x := by
  unfold addToSet
  by_cases hm : x ∈ l
  · rw [if_pos hm]
    constructor
    · exact Or.inl
    · rintro (h | rfl)
      · exact h
      · exact hm
  · rw [if_neg hm]
    simp

theorem foldl_applyTrend_spec : ∀ (fs : List Obs) (a : KeywordAgg),
    (fs.foldl applyTrend a).keyword = a.keyword ∧
    (fs.foldl applyTrend a).total_volume = a.total_volume + (fs.map Obs.volume).sum ∧
    (fs.foldl applyTrend a).total_engagement
      = a.total_engagement + (fs.map Obs.engagement_score).sum ∧
    (fs.foldl applyTrend a).occurrences = a.occurrences + fs.length ∧
    (fs.foldl applyTrend a).sentiment_scores
      = a.sentiment_scores ++ fs.map Obs.sentiment_score ∧
    (∀ p, p ∈ (fs.foldl applyTrend a).platforms ↔
      p ∈ a.platforms ∨ p ∈ fs.map Obs.platform) ∧
    (∀ c, c ∈ (fs.foldl applyTrend a).categories ↔
      c ∈ a.categories ∨ c ∈ fs.map Obs.category)
  | [], a => by simp
  | f :: fs, a => by
    obtain ⟨h1, h2, h3, h4, h5, h6, h7⟩ := foldl_applyTrend_spec fs (applyTrend a f)
    rw [List.foldl_cons]
    refine ⟨?_, ?_, ?_, ?_, ?_, ?_, ?_⟩
    · rw [h1]
      rfl
    · rw [h2]
      show (applyTrend a f).total_volume + _ = _
      simp only [applyTrend, List.map_cons, List.sum_cons]
      ring
    · rw [h3]
      show (applyTrend a f).total_engagement + _ = _
      simp only [applyTrend, List.map_cons, List.sum_cons]
      ring
    · rw [h4]
      show (applyTrend a f).occurrences + _ = _
      simp only [applyTrend, List.length_cons]
      omega
    · rw [h5]
      show (applyTrend a f).sentiment_scores ++ _ = _
      simp only [applyTrend, List.map_cons]
      simp [List.append_assoc]
    · intro p
      rw [h6 p]
      show p ∈ addToSet a.platforms f.platform ∨ _ ↔ _
      rw [mem_addToSet]
      simp only [List.map_cons, List.mem_cons]
      tauto
    · intro c
      rw [h7 c]
      show c ∈ addToSet a.categories f.category ∨ _ ↔ _
      rw [mem_addToSet]
      simp only [List.map_cons, List.mem_cons]
      tauto

/-! ## Claim theorems: aggregation summary -/

/-- C3: over any list of observations read from the trailing window, the
aggregation emits exactly one summary row per distinct keyword (the row keys
are exactly the keywords seen, without duplicates); each row carries the
summed volume and engagement of its keyword, the observation count, the mean
sentiment, the sets of platforms and categories seen, and a combined score
equal to total volume plus total engagement; the returned list is the stable
descending sort of those rows by combined score, truncated to the top N. -/
theorem get_current_trends_summary_spec (trends : List Obs) (top_n : Nat) :
    (((groupTrends trends).map toSummary).map SummaryRow.keyword).Nodup ∧
    (∀ k, k ∈ ((groupTrends trends).map toSummary).map SummaryRow.keyword ↔
      k ∈ trends.map Obs.keyword) ∧
    (∀ row ∈ (groupTrends trends).map toSummary,
      row.total_volume
          = ((trends.filter (fun t => t.keyword = row.keyword)).map Obs.volume).sum ∧
      row.total_engagement
          = ((trends.filter (fun t => t.keyword = row.keyword)).map
              Obs.engagement_score).sum ∧
      row.occurrences = (trends.filter (fun t => t.keyword = row.keyword)).length ∧
      row.avg_sentiment
          = ((trends.filter (fun t => t.keyword = row.keyword)).map
              Obs.sentiment_score).sum
            / ((trends.filter (fun t => t.keyword = row.keyword)).length : ℚ) ∧
      (∀ p, p ∈ row.platforms ↔
        p ∈ (trends.filter (fun t => t.keyword = row.keyword)).map Obs.platform) ∧
      (∀ c, c ∈ row.categories ↔
        c ∈ (trends.filter (fun t => t.keyword = row.keyword)).map Obs.category) ∧
      row.combined_score = (row.total_volume : ℚ) + row.total_engagement) ∧
    get_current_trends_summary trends top_n
      = (List.insertionSort (fun a b => b.combined_score ≤ a.combined_score)
          ((groupTrends trends).map toSummary)).take top_n ∧
    (get_current_trends_summary trends top_n).Sorted
      (fun a b => b.combined_score ≤ a.combined_score) ∧
    (get_current_trends_summary trends top_n).length
      = min top_n ((groupTrends trends).map toSummary).length ∧
    (∀ row ∈ get_current_trends_summary trends top_n,
      row ∈ (groupTrends trends).map toSummary) := by
  have hmapkw : ((groupTrends trends).map toSummary).map SummaryRow.keyword
      = (groupTrends trends).map KeywordAgg.keyword := by
    rw [List.map_map]
    rfl
  have hkeys : ((groupTrends trends).map KeywordAgg.keyword).Nodup :=
    foldl_updateAgg_keys_nodup trends [] (by simp)
  haveI htot : IsTotal SummaryRow (fun a b => b.combined_score ≤ a.combined_score) :=
    ⟨fun a b => le_total b.combined_score a.combined_score⟩
  haveI htrans : IsTrans SummaryRow (fun a b => b.combined_score ≤ a.combined_score) :=
    ⟨fun _ _ _ hab hbc => le_trans hbc hab⟩
  refine ⟨?_, ?_, ?_, rfl, ?_, ?_, ?_⟩
  · rw [hmapkw]
    exact hkeys
  · intro k
    rw [hmapkw]
    have h := foldl_updateAgg_keys_mem k trends []
    simpa [groupTrends] using h
  · intro row hrow
    obtain ⟨a, ha, rfl⟩ := List.mem_map.mp hrow
    have hfind : findAgg (groupTrends trends) a.keyword = some a :=
      findAgg_of_mem (groupTrends trends) hkeys a ha
    have hfold : findAgg (groupTrends trends) a.keyword = aggFold none a.keyword trends :=
      findAgg_foldl a.keyword trends []
    have hkmem : a.keyword ∈ trends.map Obs.keyword := by
      have h1 : a.keyword ∈ (groupTrends trends).map KeywordAgg.keyword :=
        List.mem_map_of_mem KeywordAgg.keyword ha
      rcases (foldl_updateAgg_keys_mem a.keyword trends []).mp h1 with h | h
      · exact absurd h (by simp)
      · exact h
    have hne : trends.filter (fun t => t.keyword = a.keyword) ≠ [] := by
      obtain ⟨t, ht, htk⟩ := List.mem_map.mp hkmem
      intro hnil
      have h2 := List.filter_eq_nil_iff.mp hnil t ht
      simp [htk] at h2
    have haeq : a = (trends.filter (fun t => t.keyword = a.keyword)).foldl
        applyTrend (emptyAgg a.keyword) := by
      have h3 := aggFold_none_of_filter_ne a.keyword trends hne
      rw [← hfold, hfind] at h3
      exact Option.some.inj h3
    obtain ⟨hk, hv, he, ho, hs, hp, hc⟩ :=
      foldl_applyTrend_spec (trends.filter (fun t => t.keyword = a.keyword))
        (emptyAgg a.keyword)
    have hrk : (toSummary a).keyword = a.keyword := rfl
    simp only [hrk]
    have hssc : a.sentiment_scores
        = (trends.filter (fun t => t.keyword = a.keyword)).map Obs.sentiment_score := by
      conv_lhs => rw [haeq]
      rw [hs]
      simp [emptyAgg]
    refine ⟨?_, ?_, ?_, ?_, ?_, ?_, rfl⟩
    · show a.total_volume = _
      conv_lhs => rw [haeq]
      rw [hv]
      simp [emptyAgg]
    · show a.total_engagement = _
      conv_lhs => rw [haeq]
      rw [he]
      simp [emptyAgg]
    · show a.occurrences = _
      conv_lhs => rw [haeq]
      rw [ho]
      simp [emptyAgg]
    · have hnonempty : a.sentiment_scores.isEmpty = false := by
        rw [hssc]
        cases hfe : trends.filter (fun t => t.keyword = a.keyword) with
        | nil => exact absurd hfe hne
        | cons x xs => simp
      show (if a.sentiment_scores.isEmpty then 0
          else a.sentiment_scores.sum / (a.sentiment_scores.length : ℚ)) = _
      rw [if_neg (by rw [hnonempty]; exact Bool.false_ne_true), hssc, List.length_map]
    · intro p
      show p ∈ a.platforms ↔ _
      conv_lhs => rw [haeq]
      rw [hp p]
      simp [emptyAgg]
    · intro c
      show c ∈ a.categories ↔ _
      conv_lhs => rw [haeq]
      rw [hc c]
      simp [emptyAgg]
  · exact List.Pairwise.sublist (List.take_sublist top_n _)
      (List.sorted_insertionSort (fun a b : SummaryRow => b.combined_score ≤ a.combined_score)
        ((groupTrends trends).map toSummary))
  · show (List.take top_n _).length = _
    rw [List.length_take, List.length_insertionSort]
  · intro row hrow
    have h1 := (List.take_sublist top_n _).subset hrow
    exact (List.mem_insertionSort _).mp h1

/-- Witness for C3: on the two-observation example store the aggregation
emits rows with pairwise distinct keywords. -/
theorem get_current_trends_summary_spec_witness :
    (((groupTrends [aObs1, aObs2]).map toSummary).map SummaryRow.keyword).Nodup :=
  (get_current_trends_summary_spec [aObs1, aObs2] 5).1
